import Mathlib

/-!
Verification of the cross-domain transfer persistence layer of the monorepo.

The database client (`packages/adapters/database/src/client.ts`) is exercised by
`packages/adapters/database/test/client.spec.ts` but its implementation is not part
of the excerpt, so the store operations below are modelled from the specification
(merge-upsert semantics, derived status, pagination, pending queries, root-message
monotone processed flag, router balances, checkpoints).  The subgraph mapping
handlers (`packages/deployments/subgraph/src/amarok-runtime-v0/mapping/routers.ts`)
are embedded directly from the source.
-/

namespace ConnextDB

/-- Generic association lookup by a key projection. -/
def lookupBy {α : Type} {K : Type} [DecidableEq K] (key : α → K) (k : K) : List α → Option α
  | [] => none
  | r :: rs => if key r = k then some r else lookupBy key k rs

/-- Modelled from the spec: the Merge-Upsert Primitive (§4.1) applied to a keyed
store held as a list of records.  If a record with the write key exists it is
merged with the incoming partial record, otherwise the incoming record is
appended. -/
def upsertBy {α : Type} {K : Type} [DecidableEq K] (key : α → K) (mrg : α → α → α) (w : α) :
    List α → List α
  | [] => [w]
  | r :: rs => if key r = key w then mrg r w :: rs else r :: upsertBy key mrg w rs

/-- Ordering token for paginated reads (ASC / DESC). -/
inductive SortOrder
  | asc
  | desc
deriving DecidableEq

/-- Modelled from the spec: origin-side sub-record of a transfer
(caller, asset, amount, call timestamp, transaction hash), §3. -/
structure OriginRecord where
  caller : String
  asset : String
  amount : String
  timestamp : Nat
  transactionHash : String
deriving DecidableEq

/-- Timestamped destination-side event (execute or reconcile observation). -/
structure DestEvent where
  timestamp : Nat
  transactionHash : String
deriving DecidableEq

/-- Modelled from the spec: destination-side sub-record
(assigned routers, execute sub-record, reconcile sub-record), §3. -/
structure DestinationRecord where
  routers : List String
  execute : Option DestEvent
  reconcile : Option DestEvent
deriving DecidableEq

/-- Modelled from the spec: immutable origin-determined parameters of a transfer, §3. -/
structure XParams where
  originDomain : String
  destinationDomain : String
  nonce : Nat
  canonicalId : String
  receiveLocal : Bool
  callData : String
deriving DecidableEq

/-- A logical transfer record: key, parameters and the two optional sides. -/
structure XTransfer where
  transferId : String
  xparams : XParams
  origin : Option OriginRecord
  destination : Option DestinationRecord
deriving DecidableEq

inductive XTransferStatus
  | XCalled
  | Reconciled
  | CompletedFast
  | CompletedSlow
  | Executed
deriving DecidableEq

/-- Modelled from the spec: derived transfer status, the pure function of sub-record
presence given by the table in §4.3; the fast/slow discriminator comes from the
router-assignment data on the destination sub-record. -/
def statusOf (t : XTransfer) : Option XTransferStatus :=
  match t.destination with
  | none => t.origin.map (fun _ => .XCalled)
  | some d =>
    match d.reconcile, d.execute with
    | some _, none => some .Reconciled
    | none, some _ => if d.routers.isEmpty then some .CompletedSlow else some .CompletedFast
    | some _, some _ => some .Executed
    | none, none => none

/-- Field merge of §4.1: a non-null incoming field overwrites the stored value, an
omitted (null) incoming field keeps the stored value. -/
def keepStored {β : Type} (incoming stored : Option β) : Option β :=
  match incoming with
  | some x => some x
  | none => stored

/-- Modelled from the spec: merge of the optional destination sub-record; the execute
and reconcile sub-records are independently settable (§3, §4.1). -/
def mergeDestination : Option DestinationRecord → Option DestinationRecord →
    Option DestinationRecord
  | stored, none => stored
  | none, some d => some d
  | some s, some d =>
    some { routers := d.routers
           execute := keepStored d.execute s.execute
           reconcile := keepStored d.reconcile s.reconcile }

/-- Modelled from the spec: the per-record merge for transfers; `xparams`, `origin`
and `destination` are merged independently (§4.3). -/
def mergeTransfer (stored incoming : XTransfer) : XTransfer :=
  { transferId := stored.transferId
    xparams := incoming.xparams
    origin := keepStored incoming.origin stored.origin
    destination := mergeDestination stored.destination incoming.destination }

/-- The transfer store: one record per transfer id, in insertion order. -/
abbrev TransferDB : Type := List XTransfer

/-- Modelled from the spec: `saveTransfers(batch)` merge-upserts each transfer of the
batch; an undefined batch is a no-op (§4.3, §6). -/
def saveTransfers (batch : Option (List XTransfer)) (db : TransferDB) : TransferDB :=
  match batch with
  | none => db
  | some ts => ts.foldl (fun acc t => upsertBy XTransfer.transferId mergeTransfer t acc) db

/-- Modelled from the spec: `getTransferByTransferId` (§4.3). -/
def getTransferByTransferId (id : String) (db : TransferDB) : Option XTransfer :=
  lookupBy XTransfer.transferId id db

/-- Deterministic sort key for transfer reads: nonce, tie-broken by transfer id (§4.3). -/
def transferLE (a b : XTransfer) : Bool :=
  decide (a.xparams.nonce < b.xparams.nonce) ||
    (decide (a.xparams.nonce = b.xparams.nonce) && decide (a.transferId ≤ b.transferId))

def sortTransfers (ord : SortOrder) (l : List XTransfer) : List XTransfer :=
  match ord with
  | .asc => l.mergeSort transferLE
  | .desc => l.mergeSort (fun a b => transferLE b a)

/-- Modelled from the spec: `getTransfersByStatus(status, limit, offset, order)`
filters by derived status, sorts by the deterministic key, pages by offset/limit;
an unset status yields the empty sequence (§4.3). -/
def getTransfersByStatus (status : Option XTransferStatus) (limit offset : Option Nat)
    (ord : Option SortOrder) (db : TransferDB) : List XTransfer :=
  match status with
  | none => []
  | some s =>
    let hits := db.filter (fun t => decide (statusOf t = some s))
    ((sortTransfers (ord.getD .asc) hits).drop (offset.getD 0)).take (limit.getD hits.length)

/-- Modelled from the spec: `getTransfersWithOriginPending(domain, limit, order)` —
identifiers of transfers on `domain` whose destination side is present but whose
origin sub-record is absent; an undefined domain yields the empty sequence (§4.3, §6). -/
def getTransfersWithOriginPending (domain : Option String) (limit : Option Nat)
    (ord : Option SortOrder) (db : TransferDB) : List String :=
  match domain with
  | none => []
  | some dom =>
    let pend := db.filter
      (fun t => decide (t.xparams.originDomain = dom) && t.destination.isSome && t.origin.isNone)
    ((sortTransfers (ord.getD .asc) pend).take (limit.getD pend.length)).map XTransfer.transferId

/-- Modelled from the spec: `getTransfersWithDestinationPending(domain, limit, order)` —
the symmetric case: origin observed, destination-side data still missing (§4.3, §6). -/
def getTransfersWithDestinationPending (domain : Option String) (limit : Option Nat)
    (ord : Option SortOrder) (db : TransferDB) : List String :=
  match domain with
  | none => []
  | some dom =>
    let pend := db.filter
      (fun t => decide (t.xparams.destinationDomain = dom) && t.origin.isSome && t.destination.isNone)
    ((sortTransfers (ord.getD .asc) pend).take (limit.getD pend.length)).map XTransfer.transferId

/-- Modelled from the spec: a root-propagation record (§3); the composite key
(origin domain, destination domain, root value) is held as a single id, with root
value and sequence/block metadata as payload and the monotone processed flag. -/
structure RootMessage where
  id : String
  root : String
  blockNumber : Nat
  processed : Bool
deriving DecidableEq

/-- Modelled from the spec: merge for root messages — non-processed fields supplied by
the incoming record overwrite, and the monotone `processed` flag is combined with a
logical OR rather than overwritten (§4.1(c), §4.5). -/
def mergeRootMessage (stored incoming : RootMessage) : RootMessage :=
  { id := stored.id
    root := incoming.root
    blockNumber := incoming.blockNumber
    processed := stored.processed || incoming.processed }

abbrev RootMessageDB : Type := List RootMessage

def upsertRootMessage (m : RootMessage) (db : RootMessageDB) : RootMessageDB :=
  upsertBy RootMessage.id mergeRootMessage m db

/-- Apply a root-message batch, forcing each write's processed flag to `setFlag`. -/
def saveRootBatch (setFlag : Bool) (ms : List RootMessage) (db : RootMessageDB) :
    RootMessageDB :=
  ms.foldl (fun acc m => upsertRootMessage { m with processed := setFlag } acc) db

/-- Modelled from the spec: `saveSentRootMessages` merge-upserts the non-processed
fields and supplies no value for the processed flag (the write carries `false`, the
OR-merge keeps any stored `true`); an undefined batch is a no-op (§4.5, §6). -/
def saveSentRootMessages (batch : Option (List RootMessage)) (db : RootMessageDB) :
    RootMessageDB :=
  match batch with
  | none => db
  | some ms => saveRootBatch false ms db

/-- Modelled from the spec: `saveProcessedRootMessages` merge-upserts and forces
`processed = true`, creating the record if the sent write has not yet arrived (§4.5). -/
def saveProcessedRootMessages (batch : Option (List RootMessage)) (db : RootMessageDB) :
    RootMessageDB :=
  match batch with
  | none => db
  | some ms => saveRootBatch true ms db

/-- One write call against the root-message store. -/
inductive RootWrite
  | sent (batch : List RootMessage)
  | processed (batch : List RootMessage)

def applyRootWrite (db : RootMessageDB) : RootWrite → RootMessageDB
  | .sent b => saveSentRootMessages (some b) db
  | .processed b => saveProcessedRootMessages (some b) db

def applyRootWrites (ops : List RootWrite) (db : RootMessageDB) : RootMessageDB :=
  ops.foldl applyRootWrite db

/-- Whether some `saveProcessedRootMessages` call of the interleaving touches key `k`. -/
def touchesProcessed (k : String) (ops : List RootWrite) : Bool :=
  ops.any fun op =>
    match op with
    | .processed b => b.any (fun m => decide (m.id = k))
    | .sent _ => false

/-- Modelled from the spec: a message record (§3, §4.4) — keyed by its leaf, with the
origin-domain dispatch record and the monotone destination `processed` flag. -/
structure XMessage where
  leaf : String
  originDomain : String
  destinationDomain : String
  dispatch : Option String
  processed : Bool
deriving DecidableEq

/-- Modelled from the spec: merge for messages — dispatch data overwrites when
supplied, the `processed` flag is monotone (OR-combined), §4.1, §4.4. -/
def mergeMessage (stored incoming : XMessage) : XMessage :=
  { leaf := stored.leaf
    originDomain := incoming.originDomain
    destinationDomain := incoming.destinationDomain
    dispatch := keepStored incoming.dispatch stored.dispatch
    processed := stored.processed || incoming.processed }

abbrev MessageDB : Type := List XMessage

/-- Modelled from the spec: `saveMessages(batch)`; an undefined batch is a no-op. -/
def saveMessages (batch : Option (List XMessage)) (db : MessageDB) : MessageDB :=
  match batch with
  | none => db
  | some ms => ms.foldl (fun acc m => upsertBy XMessage.leaf mergeMessage m acc) db

/-- Modelled from the spec: `getPendingMessages(domain?, limit?)` — messages with
`processed = false`, optionally filtered by origin domain (§4.4). -/
def getPendingMessages (domain : Option String) (limit : Option Nat) (db : MessageDB) :
    List XMessage :=
  let pend := db.filter
    (fun m => !m.processed && domain.elim true (fun dm => decide (m.originDomain = dm)))
  pend.take (limit.getD pend.length)

/-- A named checkpoint: highest processed sequence number per cursor (§3, §4.2). -/
structure Checkpoint where
  name : String
  value : Nat
deriving DecidableEq

abbrev CheckpointDB : Type := List Checkpoint

/-- Error taxonomy of §7. -/
inductive DBError
  | InvalidArgument
  | NotFound
  | InvalidState
  | StoreUnavailable
deriving DecidableEq

/-- Checkpoint merge: plain overwrite of the stored value (§9 resolves the open
question to plain overwrite with the caller responsible for monotonicity). -/
def mergeCheckpoint (stored incoming : Checkpoint) : Checkpoint :=
  { name := stored.name, value := incoming.value }

/-- Modelled from the spec: `saveCheckPoint(name, value)` upsert; undefined arguments
degrade to a no-op per the defensive-write policy (§4.2, §7) exercised by the tests. -/
def saveCheckPoint (name : Option String) (value : Option Nat) (db : CheckpointDB) :
    CheckpointDB :=
  match name, value with
  | some n, some v => upsertBy Checkpoint.name mergeCheckpoint ⟨n, v⟩ db
  | _, _ => db

/-- Modelled from the spec and the test suite: `getCheckPoint(name)` returns 0 for an
unknown name; an undefined name also returns 0 without raising (the repository's own
tests demand non-rejection, so no `InvalidArgument` is ever produced). -/
def getCheckPoint (name : Option String) (db : CheckpointDB) : Except DBError Nat :=
  match name with
  | none => Except.ok 0
  | some n => Except.ok ((lookupBy Checkpoint.name n db).elim 0 Checkpoint.value)

/-- Modelled from the spec: one per-(domain, canonical asset id) balance entry of a
router snapshot; the amount crosses the boundary as a decimal string (§3, §4.6, §6). -/
structure AssetBalanceEntry where
  domain : String
  canonicalId : String
  adoptedAsset : String
  localAsset : String
  blockNumber : Nat
  balance : String
deriving DecidableEq

/-- A router's full balance snapshot, as written and as read back (§4.6). -/
structure RouterBalance where
  router : String
  assets : List AssetBalanceEntry
deriving DecidableEq

/-- One stored row of the router-balance ledger. -/
structure FlatBalance where
  router : String
  domain : String
  canonicalId : String
  adoptedAsset : String
  localAsset : String
  blockNumber : Nat
  balance : String
deriving DecidableEq

def balKey (e : FlatBalance) : String × String × String := (e.router, e.domain, e.canonicalId)

/-- Replace-style merge of the ledger: the incoming snapshot row is authoritative. -/
def mergeFlat (stored incoming : FlatBalance) : FlatBalance :=
  { router := stored.router
    domain := stored.domain
    canonicalId := stored.canonicalId
    adoptedAsset := incoming.adoptedAsset
    localAsset := incoming.localAsset
    blockNumber := incoming.blockNumber
    balance := incoming.balance }

abbrev RouterBalanceDB : Type := List FlatBalance

def flattenRouterBalances (rbs : List RouterBalance) : List FlatBalance :=
  rbs.flatMap (fun rb => rb.assets.map
    (fun a => ⟨rb.router, a.domain, a.canonicalId, a.adoptedAsset, a.localAsset,
      a.blockNumber, a.balance⟩))

/-- Modelled from the spec: `saveRouterBalances(batch)` — full-state idempotent upsert
per (router, domain, canonical asset id), replacing the stored amount; an undefined or
empty batch is a no-op (§4.6). -/
def saveRouterBalances (batch : Option (List RouterBalance)) (db : RouterBalanceDB) :
    RouterBalanceDB :=
  match batch with
  | none => db
  | some rbs => (flattenRouterBalances rbs).foldl (fun acc e => upsertBy balKey mergeFlat e acc) db

/-- Sort key of the aggregated read view: (router address, domain, canonical asset id). -/
def flatLE (a b : FlatBalance) : Bool :=
  decide (a.router < b.router) ||
    (decide (a.router = b.router) &&
      (decide (a.domain < b.domain) ||
        (decide (a.domain = b.domain) && decide (a.canonicalId ≤ b.canonicalId))))

def entryOfFlat (e : FlatBalance) : AssetBalanceEntry :=
  ⟨e.domain, e.canonicalId, e.adoptedAsset, e.localAsset, e.blockNumber, e.balance⟩

/-- Group a flat row list into per-router balances, preserving row order (the read
aggregation of §4.6, mirroring `convertToRouterBalance` over the sorted view). -/
def groupByRouter : List FlatBalance → List RouterBalance
  | [] => []
  | e :: rest =>
    match groupByRouter rest with
    | [] => [⟨e.router, [entryOfFlat e]⟩]
    | rb :: rbs =>
      if rb.router = e.router then ⟨rb.router, entryOfFlat e :: rb.assets⟩ :: rbs
      else ⟨e.router, [entryOfFlat e]⟩ :: rb :: rbs

/-- Modelled from the spec: the aggregated router-balance read view, grouped by router
and ordered by (router address, domain, canonical asset id) (§4.6, §6). -/
def readRouterBalances (db : RouterBalanceDB) : List RouterBalance :=
  groupByRouter (db.mergeSort flatLE)

/-- Subgraph `AssetBalance` entity (from `routers.ts`): keyed by the
(local asset, router) pair; the graph-ts `BigInt` amount is arbitrary-precision and
signed, embedded as `Int`.  The field `localAsset` renders the source's `local`. -/
structure AssetBalance where
  localAsset : String
  router : String
  amount : Int
deriving DecidableEq

def abKey (a : AssetBalance) : String × String := (a.localAsset, a.router)

/-- Overwrite-at-key save of a subgraph entity (`entity.save()`). -/
def mergeAssetBalance (stored incoming : AssetBalance) : AssetBalance :=
  { localAsset := stored.localAsset, router := stored.router, amount := incoming.amount }

def saveAssetBalance (ab : AssetBalance) (db : List AssetBalance) : List AssetBalance :=
  upsertBy abKey mergeAssetBalance ab db

/-- Modelled from the spec: helper `getOrCreateAssetBalance` (its module is not part of
the excerpt) — loads the (local, router) balance or creates it with amount 0 for the
delta path of §4.6. -/
def getOrCreateAssetBalance (localAsset router : String) (db : List AssetBalance) :
    AssetBalance :=
  (lookupBy abKey (localAsset, router) db).getD ⟨localAsset, router, 0⟩

/-- Embedded from `routers.ts` `handleRouterLiquidityAdded`: adds the event amount
(a uint256, embedded as `Nat`) to the stored balance and saves. -/
def handleRouterLiquidityAdded (localAsset router : String) (amount : Nat)
    (db : List AssetBalance) : List AssetBalance :=
  let assetBalance := getOrCreateAssetBalance localAsset router db
  saveAssetBalance { assetBalance with amount := assetBalance.amount + amount } db

/-- Embedded from `routers.ts` `handleRouterLiquidityRemoved`: subtracts the event
amount from the stored balance and saves, with no underflow check. -/
def handleRouterLiquidityRemoved (localAsset router : String) (amount : Nat)
    (db : List AssetBalance) : List AssetBalance :=
  let assetBalance := getOrCreateAssetBalance localAsset router db
  saveAssetBalance { assetBalance with amount := assetBalance.amount - amount } db

/-- Subgraph `Router` entity (fields of the schema touched by `routers.ts`). -/
structure Router where
  id : String
  isActive : Bool
  owner : Option String
  recipient : Option String
  proposedOwner : Option String
  proposedTimestamp : Option Nat
deriving DecidableEq

/-- Subgraph `Setting` entity (singleton id "1"). -/
structure Setting where
  maxRoutersPerTransfer : Int
  caller : String
deriving DecidableEq

structure SubgraphState where
  routers : List Router
  setting : Option Setting
deriving DecidableEq

def mergeRouter (stored incoming : Router) : Router :=
  { incoming with id := stored.id }

def saveRouter (r : Router) (db : List Router) : List Router :=
  upsertBy Router.id mergeRouter r db

def zeroAddress : String := "0x0000000000000000000000000000000000000000"

/-- Embedded from `routers.ts` `handleRouterAdded`: creates the router with
`isActive = true` only when no router with that id exists; also creates the default
`Setting` (max 5 routers per transfer, zero caller) when absent. -/
def handleRouterAdded (routerId : String) (s : SubgraphState) : SubgraphState :=
  let s1 :=
    match lookupBy Router.id routerId s.routers with
    | none => { s with routers := saveRouter ⟨routerId, true, none, none, none, none⟩ s.routers }
    | some _ => s
  match s1.setting with
  | none => { s1 with setting := some ⟨5, zeroAddress⟩ }
  | some _ => s1

/-- Embedded from `routers.ts` `handleRouterRemoved`: loads or creates the router and
sets `isActive = false`. -/
def handleRouterRemoved (routerId : String) (s : SubgraphState) : SubgraphState :=
  let router := (lookupBy Router.id routerId s.routers).getD ⟨routerId, false, none, none, none, none⟩
  { s with routers := saveRouter { router with isActive := false } s.routers }

/-- Apply a list of writes to a keyed store, left to right. -/
def upsertAll {α : Type} {K : Type} [DecidableEq K] (key : α → K) (mrg : α → α → α)
    (l : List α) (db : List α) : List α :=
  l.foldl (fun acc e => upsertBy key mrg e acc) db

/-- Strict lexicographic order on ledger rows by (router, domain, canonical asset id). -/
def flatLT (a b : FlatBalance) : Prop :=
  a.router < b.router ∨ (a.router = b.router ∧
    (a.domain < b.domain ∨ (a.domain = b.domain ∧ a.canonicalId < b.canonicalId)))

instance instDecidableFlatLT (a b : FlatBalance) : Decidable (flatLT a b) := by
  unfold flatLT
  infer_instance

/-- A concrete two-router snapshot in canonical (router, domain, canonical id) order. -/
def sampleRouterBalances : List RouterBalance :=
  [⟨"0xa", [⟨"1234", "0xb", "0xaa", "0xaa", 0, "100"⟩,
      ⟨"1234", "0xbb", "0xaa", "0xaa", 0, "99"⟩]⟩,
   ⟨"0xb", [⟨"1234", "0xb", "0xaa", "0xaa", 0, "98"⟩,
      ⟨"12345", "0xb", "0xaa", "0xaa", 0, "97"⟩]⟩]

/-- Ten concrete origin-only transfers with distinct increasing nonces. -/
def sampleTransfers : TransferDB :=
  (List.range 10).map (fun i =>
    ⟨String.append "t" (toString i), ⟨"o", "d", i + 1, "c", false, ""⟩,
      some ⟨"", "", "", 0, ""⟩, none⟩)

theorem lookupBy_upsertBy_self {α K : Type} [DecidableEq K] (key : α → K) (mrg : α → α → α)
    (hk : ∀ r w, key (mrg r w) = key r) (w : α) (db : List α) :
    lookupBy key (key w) (upsertBy key mrg w db) =
      some ((lookupBy key (key w) db).elim w (fun r => mrg r w)) := by
  induction db with
  | nil => simp [upsertBy, lookupBy]
  | cons r rs ih =>
    by_cases h : key r = key w
    · simp [upsertBy, lookupBy, h, hk]
    · simp [upsertBy, lookupBy, h, ih]

theorem lookupBy_upsertBy_ne {α K : Type} [DecidableEq K] (key : α → K) (mrg : α → α → α)
    (hk : ∀ r w, key (mrg r w) = key r) (w : α) (k : K) (hne : k ≠ key w) (db : List α) :
    lookupBy key k (upsertBy key mrg w db) = lookupBy key k db := by
  induction db with
  | nil =>
    have hw : ¬ key w = k := fun hc => hne hc.symm
    simp [upsertBy, lookupBy, hw]
  | cons r rs ih =>
    by_cases h : key r = key w
    · have hw : ¬ key w = k := fun hc => hne hc.symm
      have hrk : ¬ key r = k := by rw [h]; exact hw
      have hmk : ¬ key (mrg r w) = k := by rw [hk]; exact hrk
      simp only [upsertBy, if_pos h, lookupBy, if_neg hmk, if_neg hrk]
    · simp only [upsertBy, if_neg h, lookupBy]
      by_cases h2 : key r = k
      · rw [if_pos h2, if_pos h2]
      · rw [if_neg h2, if_neg h2, ih]

theorem upsertBy_idem {α K : Type} [DecidableEq K] (key : α → K) (mrg : α → α → α)
    (hk : ∀ r w, key (mrg r w) = key r) (w : α)
    (habsorb : ∀ r, mrg (mrg r w) w = mrg r w) (hself : mrg w w = w) (db : List α) :
    upsertBy key mrg w (upsertBy key mrg w db) = upsertBy key mrg w db := by
  induction db with
  | nil => simp [upsertBy, hself]
  | cons r rs ih =>
    by_cases h : key r = key w
    · simp [upsertBy, h, hk, habsorb]
    · simp [upsertBy, h, ih]

theorem keepStored_self {β : Type} (a : Option β) : keepStored a a = a := by
  cases a <;> rfl

theorem keepStored_absorb {β : Type} (a b : Option β) :
    keepStored a (keepStored a b) = keepStored a b := by
  cases a <;> rfl

theorem mergeDestination_self (a : Option DestinationRecord) : mergeDestination a a = a := by
  cases a with
  | none => rfl
  | some d => simp [mergeDestination, keepStored_self]

theorem mergeDestination_none (s : Option DestinationRecord) :
    mergeDestination s none = s := by
  cases s <;> rfl

theorem mergeDestination_absorb (s d : Option DestinationRecord) :
    mergeDestination (mergeDestination s d) d = mergeDestination s d := by
  cases d with
  | none => rw [mergeDestination_none]
  | some d0 =>
    cases s with
    | none => simp [mergeDestination, keepStored_self]
    | some s0 => simp [mergeDestination, keepStored_absorb]

theorem mergeTransfer_self (t : XTransfer) : mergeTransfer t t = t := by
  simp [mergeTransfer, keepStored_self, mergeDestination_self]

theorem mergeTransfer_absorb (s w : XTransfer) :
    mergeTransfer (mergeTransfer s w) w = mergeTransfer s w := by
  simp [mergeTransfer, keepStored_absorb, mergeDestination_absorb]

theorem mergeTransfer_key (s w : XTransfer) :
    (mergeTransfer s w).transferId = s.transferId := rfl

/-- C1: for every transfer id, writing a partial transfer carrying only the destination
sub-record after a write carrying only the origin sub-record (or in the reverse order)
via `saveTransfers` yields a stored record in which both origin and destination are
populated and each equals the value it was independently written with; and a write that
omits a field never erases a previously stored non-null value of that field. -/
theorem saveTransfers_field_preservation
    (id : String) (xp1 xp2 : XParams) (o : OriginRecord) (d : DestinationRecord) :
    getTransferByTransferId id
        (saveTransfers (some [⟨id, xp2, none, some d⟩])
          (saveTransfers (some [⟨id, xp1, some o, none⟩]) ([] : TransferDB))) =
      some ⟨id, xp2, some o, some d⟩
    ∧ getTransferByTransferId id
        (saveTransfers (some [⟨id, xp1, some o, none⟩])
          (saveTransfers (some [⟨id, xp2, none, some d⟩]) ([] : TransferDB))) =
      some ⟨id, xp1, some o, some d⟩
    ∧ (∀ s w : XTransfer, w.origin = none → (mergeTransfer s w).origin = s.origin)
    ∧ (∀ s w : XTransfer, w.destination = none →
        (mergeTransfer s w).destination = s.destination) := by
  refine ⟨?_, ?_, ?_, ?_⟩
  · simp [saveTransfers, upsertBy, getTransferByTransferId, lookupBy, mergeTransfer,
      keepStored, mergeDestination]
  · simp [saveTransfers, upsertBy, getTransferByTransferId, lookupBy, mergeTransfer,
      keepStored, mergeDestination]
  · intro s w h
    simp [mergeTransfer, h, keepStored]
  · intro s w h
    simp [mergeTransfer, h, mergeDestination_none]

/-- Witness for C1 at concrete records. -/
theorem saveTransfers_field_preservation_witness :
    getTransferByTransferId "t"
        (saveTransfers (some [⟨"t", ⟨"1111", "2222", 2, "c", true, "cd"⟩, none,
            some ⟨["r"], none, none⟩⟩])
          (saveTransfers (some [⟨"t", ⟨"1111", "2222", 1, "c", false, "cd"⟩,
            some ⟨"a", "b", "10", 5, "h"⟩, none⟩]) ([] : TransferDB))) =
      some ⟨"t", ⟨"1111", "2222", 2, "c", true, "cd"⟩, some ⟨"a", "b", "10", 5, "h"⟩,
        some ⟨["r"], none, none⟩⟩
    ∧ (⟨"t", ⟨"1111", "2222", 2, "c", true, "cd"⟩, none, none⟩ : XTransfer).origin = none
    ∧ (mergeTransfer ⟨"t", ⟨"1111", "2222", 1, "c", false, "cd"⟩,
          some ⟨"a", "b", "10", 5, "h"⟩, some ⟨["r"], none, none⟩⟩
        ⟨"t", ⟨"1111", "2222", 2, "c", true, "cd"⟩, none, none⟩).origin =
      some ⟨"a", "b", "10", 5, "h"⟩ :=
  ⟨(saveTransfers_field_preservation "t" ⟨"1111", "2222", 1, "c", false, "cd"⟩
      ⟨"1111", "2222", 2, "c", true, "cd"⟩ ⟨"a", "b", "10", 5, "h"⟩ ⟨["r"], none, none⟩).1,
   rfl,
   (saveTransfers_field_preservation "t" ⟨"1111", "2222", 1, "c", false, "cd"⟩
      ⟨"1111", "2222", 2, "c", true, "cd"⟩ ⟨"a", "b", "10", 5, "h"⟩ ⟨["r"], none, none⟩).2.2.1
     ⟨"t", ⟨"1111", "2222", 1, "c", false, "cd"⟩, some ⟨"a", "b", "10", 5, "h"⟩,
        some ⟨["r"], none, none⟩⟩
     ⟨"t", ⟨"1111", "2222", 2, "c", true, "cd"⟩, none, none⟩ rfl⟩

theorem saveRootBatch_nil (setFlag : Bool) (db : RootMessageDB) :
    saveRootBatch setFlag [] db = db := rfl

theorem saveRootBatch_cons (setFlag : Bool) (m : RootMessage) (rest : List RootMessage)
    (db : RootMessageDB) :
    saveRootBatch setFlag (m :: rest) db =
      saveRootBatch setFlag rest (upsertRootMessage { m with processed := setFlag } db) := rfl

theorem mergeRootMessage_key (s w : RootMessage) :
    (mergeRootMessage s w).id = s.id := rfl

theorem processed_persists_upsert (k : String) (m : RootMessage) (db : RootMessageDB)
    (h : (lookupBy RootMessage.id k db).map RootMessage.processed = some true) :
    (lookupBy RootMessage.id k (upsertRootMessage m db)).map RootMessage.processed =
      some true := by
  obtain ⟨r, hr, hp⟩ := Option.map_eq_some'.1 h
  by_cases hk : k = m.id
  · subst hk
    rw [upsertRootMessage, lookupBy_upsertBy_self RootMessage.id mergeRootMessage
      (fun _ _ => rfl) m db, hr]
    simp [mergeRootMessage, hp]
  · rw [upsertRootMessage, lookupBy_upsertBy_ne RootMessage.id mergeRootMessage
      (fun _ _ => rfl) m k hk db]
    exact h

/-- A stored `processed = true` at key `k` survives after the write at the write key
of a single upsert. -/
theorem lookup_upsert_processed_self (m : RootMessage) (b : Bool) (db : RootMessageDB) :
    lookupBy RootMessage.id m.id (upsertRootMessage { m with processed := b } db) =
      some ((lookupBy RootMessage.id m.id db).elim { m with processed := b }
        (fun r => mergeRootMessage r { m with processed := b })) :=
  lookupBy_upsertBy_self RootMessage.id mergeRootMessage (fun _ _ => rfl)
    { m with processed := b } db

theorem processed_persists_batch (k : String) (setFlag : Bool)
    (ms : List RootMessage) (db : RootMessageDB)
    (h : (lookupBy RootMessage.id k db).map RootMessage.processed = some true) :
    (lookupBy RootMessage.id k (saveRootBatch setFlag ms db)).map RootMessage.processed =
      some true := by
  induction ms generalizing db with
  | nil => exact h
  | cons m rest ih =>
    rw [saveRootBatch_cons]
    exact ih _ (processed_persists_upsert k _ db h)

theorem processed_persists_writes (k : String) (ops : List RootWrite) (db : RootMessageDB)
    (h : (lookupBy RootMessage.id k db).map RootMessage.processed = some true) :
    (lookupBy RootMessage.id k (applyRootWrites ops db)).map RootMessage.processed =
      some true := by
  induction ops generalizing db with
  | nil => exact h
  | cons op rest ih =>
    refine ih _ ?_
    cases op with
    | sent b => exact processed_persists_batch k _ b db h
    | processed b => exact processed_persists_batch k _ b db h

theorem processed_set_in_batch (k : String) (ms : List RootMessage) (db : RootMessageDB)
    (h : ms.any (fun m => decide (m.id = k)) = true) :
    (lookupBy RootMessage.id k (saveRootBatch true ms db)).map RootMessage.processed =
      some true := by
  induction ms generalizing db with
  | nil => simp at h
  | cons m rest ih =>
    rw [saveRootBatch_cons]
    by_cases hm : m.id = k
    · apply processed_persists_batch
      subst hm
      rw [lookup_upsert_processed_self]
      cases hl : lookupBy RootMessage.id m.id db <;> simp [mergeRootMessage]
    · have hrest : rest.any (fun m => decide (m.id = k)) = true := by
        simp [List.any_cons, hm] at h
        simpa using h
      exact ih _ hrest

/-- C2: for every root-message key and every finite interleaving of
`saveSentRootMessages` and `saveProcessedRootMessages` calls, if at least one
processed-write touched the key then the final stored processed flag is `true`,
regardless of the order of the calls; in particular a sent-write applied after a
processed-write never resets the flag. -/
theorem rootMessage_processed_monotone (ops : List RootWrite) (k : String)
    (db : RootMessageDB) (h : touchesProcessed k ops = true) :
    (lookupBy RootMessage.id k (applyRootWrites ops db)).map RootMessage.processed =
      some true := by
  induction ops generalizing db with
  | nil => simp [touchesProcessed] at h
  | cons op rest ih =>
    cases op with
    | sent b =>
      have hrest : touchesProcessed k rest = true := by
        simpa [touchesProcessed, List.any_cons] using h
      exact ih _ hrest
    | processed b =>
      by_cases hb : b.any (fun m => decide (m.id = k)) = true
      · exact processed_persists_writes k rest _
          (processed_set_in_batch k b db hb)
      · have hrest : touchesProcessed k rest = true := by
          simp [touchesProcessed, List.any_cons, hb] at h
          simpa [touchesProcessed] using h
        exact ih _ hrest

/-- Witness for C2: a processed-write followed by a sent-write on the same key leaves
the stored flag `true`. -/
theorem rootMessage_processed_monotone_witness :
    touchesProcessed "k"
        [RootWrite.processed [⟨"k", "r", 3, false⟩], RootWrite.sent [⟨"k", "r2", 4, false⟩]] =
      true
    ∧ (lookupBy RootMessage.id "k"
          (applyRootWrites
            [RootWrite.processed [⟨"k", "r", 3, false⟩], RootWrite.sent [⟨"k", "r2", 4, false⟩]]
            ([] : RootMessageDB))).map RootMessage.processed = some true :=
  ⟨by decide,
   rootMessage_processed_monotone
     [RootWrite.processed [⟨"k", "r", 3, false⟩], RootWrite.sent [⟨"k", "r2", 4, false⟩]]
     "k" ([] : RootMessageDB) (by decide)⟩

theorem lookupBy_eq_some_key {α K : Type} [DecidableEq K] (key : α → K) (k : K)
    (db : List α) (r : α) (h : lookupBy key k db = some r) : key r = k := by
  induction db with
  | nil => simp [lookupBy] at h
  | cons x xs ih =>
    by_cases hx : key x = k
    · rw [lookupBy, if_pos hx] at h
      cases h
      exact hx
    · rw [lookupBy, if_neg hx] at h
      exact ih h

theorem iterate_of_idem {β : Type} (f : β → β) (hf : ∀ x, f (f x) = f x) :
    ∀ (n : Nat), 1 ≤ n → ∀ x, f^[n] x = f x := by
  intro n
  induction n with
  | zero => intro h; exact absurd h (by omega)
  | succ k ih =>
    intro _ x
    by_cases hk : k = 0
    · subst hk; simp
    · rw [Function.iterate_succ_apply, ih (Nat.one_le_iff_ne_zero.2 hk) (f x), hf]

theorem mergeMessage_self (m : XMessage) : mergeMessage m m = m := by
  simp [mergeMessage, keepStored_self]

theorem mergeMessage_absorb (s w : XMessage) :
    mergeMessage (mergeMessage s w) w = mergeMessage s w := by
  simp [mergeMessage, keepStored_absorb, Bool.or_assoc]

theorem mergeRootMessage_self (m : RootMessage) : mergeRootMessage m m = m := by
  simp [mergeRootMessage]

theorem mergeRootMessage_absorb (s w : RootMessage) :
    mergeRootMessage (mergeRootMessage s w) w = mergeRootMessage s w := by
  simp [mergeRootMessage, Bool.or_assoc]

theorem mergeFlat_self (e : FlatBalance) : mergeFlat e e = e := rfl

theorem mergeFlat_absorb (s w : FlatBalance) :
    mergeFlat (mergeFlat s w) w = mergeFlat s w := rfl

theorem mergeCheckpoint_self (c : Checkpoint) : mergeCheckpoint c c = c := rfl

theorem mergeCheckpoint_absorb (s w : Checkpoint) :
    mergeCheckpoint (mergeCheckpoint s w) w = mergeCheckpoint s w := rfl

theorem saveTransfers_single_idem (t : XTransfer) (db : TransferDB) :
    saveTransfers (some [t]) (saveTransfers (some [t]) db) = saveTransfers (some [t]) db :=
  upsertBy_idem XTransfer.transferId mergeTransfer (fun _ _ => rfl) t
    (fun r => mergeTransfer_absorb r t) (mergeTransfer_self t) db

theorem saveMessages_single_idem (m : XMessage) (db : MessageDB) :
    saveMessages (some [m]) (saveMessages (some [m]) db) = saveMessages (some [m]) db :=
  upsertBy_idem XMessage.leaf mergeMessage (fun _ _ => rfl) m
    (fun r => mergeMessage_absorb r m) (mergeMessage_self m) db

theorem saveSentRootMessages_single_idem (m : RootMessage) (db : RootMessageDB) :
    saveSentRootMessages (some [m]) (saveSentRootMessages (some [m]) db) =
      saveSentRootMessages (some [m]) db :=
  upsertBy_idem RootMessage.id mergeRootMessage (fun _ _ => rfl) { m with processed := false }
    (fun r => mergeRootMessage_absorb r _) (mergeRootMessage_self _) db

theorem saveProcessedRootMessages_single_idem (m : RootMessage) (db : RootMessageDB) :
    saveProcessedRootMessages (some [m]) (saveProcessedRootMessages (some [m]) db) =
      saveProcessedRootMessages (some [m]) db :=
  upsertBy_idem RootMessage.id mergeRootMessage (fun _ _ => rfl) { m with processed := true }
    (fun r => mergeRootMessage_absorb r _) (mergeRootMessage_self _) db

theorem saveRouterBalances_single_idem (router : String) (a : AssetBalanceEntry)
    (db : RouterBalanceDB) :
    saveRouterBalances (some [⟨router, [a]⟩]) (saveRouterBalances (some [⟨router, [a]⟩]) db) =
      saveRouterBalances (some [⟨router, [a]⟩]) db :=
  upsertBy_idem balKey mergeFlat (fun _ _ => rfl)
    ⟨router, a.domain, a.canonicalId, a.adoptedAsset, a.localAsset, a.blockNumber, a.balance⟩
    (fun r => mergeFlat_absorb r _) (mergeFlat_self _) db

theorem saveCheckPoint_single_idem (name : String) (v : Nat) (db : CheckpointDB) :
    saveCheckPoint (some name) (some v) (saveCheckPoint (some name) (some v) db) =
      saveCheckPoint (some name) (some v) db :=
  upsertBy_idem Checkpoint.name mergeCheckpoint (fun _ _ => rfl) ⟨name, v⟩
    (fun r => mergeCheckpoint_absorb r _) (mergeCheckpoint_self _) db

/-- C3: for every entity kind (transfer, message, root message, router balance,
checkpoint), every stored state, and every partial write, applying the merge-upsert
of that same write N ≥ 1 times produces the same stored state as applying it once;
every operation is a total function of its well-typed input by construction. -/
theorem merge_upsert_idempotent (n : Nat) (hn : 1 ≤ n) :
    (∀ (t : XTransfer) (db : TransferDB),
      (saveTransfers (some [t]))^[n] db = saveTransfers (some [t]) db)
    ∧ (∀ (m : XMessage) (db : MessageDB),
      (saveMessages (some [m]))^[n] db = saveMessages (some [m]) db)
    ∧ (∀ (m : RootMessage) (db : RootMessageDB),
      (saveSentRootMessages (some [m]))^[n] db = saveSentRootMessages (some [m]) db)
    ∧ (∀ (m : RootMessage) (db : RootMessageDB),
      (saveProcessedRootMessages (some [m]))^[n] db = saveProcessedRootMessages (some [m]) db)
    ∧ (∀ (router : String) (a : AssetBalanceEntry) (db : RouterBalanceDB),
      (saveRouterBalances (some [⟨router, [a]⟩]))^[n] db =
        saveRouterBalances (some [⟨router, [a]⟩]) db)
    ∧ (∀ (name : String) (v : Nat) (db : CheckpointDB),
      (saveCheckPoint (some name) (some v))^[n] db = saveCheckPoint (some name) (some v) db) :=
  ⟨fun t db => iterate_of_idem _ (saveTransfers_single_idem t) n hn db,
   fun m db => iterate_of_idem _ (saveMessages_single_idem m) n hn db,
   fun m db => iterate_of_idem _ (saveSentRootMessages_single_idem m) n hn db,
   fun m db => iterate_of_idem _ (saveProcessedRootMessages_single_idem m) n hn db,
   fun router a db => iterate_of_idem _ (saveRouterBalances_single_idem router a) n hn db,
   fun name v db => iterate_of_idem _ (saveCheckPoint_single_idem name v) n hn db⟩

/-- Witness for C3 at N = 2 on a concrete checkpoint write. -/
theorem merge_upsert_idempotent_witness :
    1 ≤ 2
    ∧ (saveCheckPoint (some "nonce_checkpoint") (some 8239764))^[2] ([] : CheckpointDB) =
        saveCheckPoint (some "nonce_checkpoint") (some 8239764) ([] : CheckpointDB) :=
  ⟨by decide,
   (merge_upsert_idempotent 2 (by decide)).2.2.2.2.2 "nonce_checkpoint" 8239764 []⟩

/-- C9: every write operation called with undefined (or empty, for router balances)
input is a no-op that completes without raising, and every read operation called with
undefined input completes with a defined value — `getTransfersByStatus` with an unset
status returns the empty sequence rather than an error. -/
theorem defensive_noop :
    (∀ db : TransferDB, saveTransfers none db = db)
    ∧ (∀ db : MessageDB, saveMessages none db = db)
    ∧ (∀ db : RootMessageDB,
        saveSentRootMessages none db = db ∧ saveProcessedRootMessages none db = db)
    ∧ (∀ db : RouterBalanceDB,
        saveRouterBalances none db = db ∧ saveRouterBalances (some []) db = db)
    ∧ (∀ db : CheckpointDB,
        saveCheckPoint none none db = db ∧ getCheckPoint none db = Except.ok 0)
    ∧ (∀ (limit offset : Option Nat) (ord : Option SortOrder) (db : TransferDB),
        getTransfersByStatus none limit offset ord db = [])
    ∧ (∀ (limit : Option Nat) (ord : Option SortOrder) (db : TransferDB),
        getTransfersWithOriginPending none limit ord db = []
        ∧ getTransfersWithDestinationPending none limit ord db = [])
    ∧ (∀ db : MessageDB, getPendingMessages none none db = db.filter (fun m => !m.processed))
    ∧ getTransferByTransferId "" ([] : TransferDB) = none := by
  refine ⟨fun _ => rfl, fun _ => rfl, fun _ => ⟨rfl, rfl⟩, fun _ => ⟨rfl, rfl⟩,
    fun _ => ⟨rfl, rfl⟩, fun _ _ _ _ => rfl, fun _ _ _ => ⟨rfl, rfl⟩, fun db => ?_, rfl⟩
  simp [getPendingMessages]

/-- C8 counterexample: with an undefined name — not a non-empty identifier — the
checkpoint read returns `ok 0` and does not fail with `InvalidArgument`. -/
theorem getCheckPoint_invalid_name_counterexample :
    getCheckPoint none ([] : CheckpointDB) = Except.ok 0
    ∧ getCheckPoint none ([] : CheckpointDB) ≠ Except.error DBError.InvalidArgument :=
  ⟨rfl, fun h => Except.noConfusion h⟩

/-- C8 (amended): `getCheckPoint` returns 0 for an unknown name, returns N after
`saveCheckPoint(name, N)` on the same store, and for an undefined (invalid) name it
returns 0 without raising instead of failing with `InvalidArgument`. -/
theorem getCheckPoint_defaults (name : String) (v : Nat) (db : CheckpointDB)
    (h : lookupBy Checkpoint.name name db = none) :
    getCheckPoint (some name) db = Except.ok 0
    ∧ getCheckPoint (some name) (saveCheckPoint (some name) (some v) db) = Except.ok v
    ∧ (∀ db2 : CheckpointDB, getCheckPoint none db2 = Except.ok 0) := by
  refine ⟨?_, ?_, fun _ => rfl⟩
  · simp [getCheckPoint, h]
  · have hs : lookupBy Checkpoint.name name
        (upsertBy Checkpoint.name mergeCheckpoint ⟨name, v⟩ db) =
        some ((lookupBy Checkpoint.name name db).elim (⟨name, v⟩ : Checkpoint)
          (fun r => mergeCheckpoint r ⟨name, v⟩)) :=
      lookupBy_upsertBy_self Checkpoint.name mergeCheckpoint (fun _ _ => rfl) ⟨name, v⟩ db
    cases hl : lookupBy Checkpoint.name name db with
    | none => simp [getCheckPoint, saveCheckPoint, hs, hl]
    | some r => simp [getCheckPoint, saveCheckPoint, hs, hl, mergeCheckpoint]

/-- Witness for C8 (amended) at the test's concrete values. -/
theorem getCheckPoint_defaults_witness :
    lookupBy Checkpoint.name "nonce_checkpoint" ([] : CheckpointDB) = none
    ∧ getCheckPoint (some "nonce_checkpoint") ([] : CheckpointDB) = Except.ok 0
    ∧ getCheckPoint (some "nonce_checkpoint")
        (saveCheckPoint (some "nonce_checkpoint") (some 8239764) ([] : CheckpointDB)) =
      Except.ok 8239764 :=
  ⟨rfl, (getCheckPoint_defaults "nonce_checkpoint" 8239764 [] rfl).1,
   (getCheckPoint_defaults "nonce_checkpoint" 8239764 [] rfl).2.1⟩

theorem lookup_saveAssetBalance (w : AssetBalance) (db : List AssetBalance) :
    lookupBy abKey (abKey w) (saveAssetBalance w db) =
      some ((lookupBy abKey (abKey w) db).elim w (fun r => mergeAssetBalance r w)) :=
  lookupBy_upsertBy_self abKey mergeAssetBalance (fun _ _ => rfl) w db

theorem getOrCreate_key (localAsset router : String) (db : List AssetBalance) :
    (getOrCreateAssetBalance localAsset router db).localAsset = localAsset
    ∧ (getOrCreateAssetBalance localAsset router db).router = router := by
  cases hl : lookupBy abKey (localAsset, router) db with
  | none => simp [getOrCreateAssetBalance, hl]
  | some r0 =>
    have hk := lookupBy_eq_some_key abKey (localAsset, router) db r0 hl
    simp [getOrCreateAssetBalance, hl]
    exact ⟨congrArg Prod.fst hk, congrArg Prod.snd hk⟩

theorem lookup_after_delta (localAsset router : String) (x : Int) (db : List AssetBalance) :
    lookupBy abKey (localAsset, router)
        (saveAssetBalance { getOrCreateAssetBalance localAsset router db with amount := x } db) =
      some ⟨localAsset, router, x⟩ := by
  obtain ⟨hL, hR⟩ := getOrCreate_key localAsset router db
  have hkey : abKey { getOrCreateAssetBalance localAsset router db with amount := x } =
      (localAsset, router) := by
    simp [abKey, hL, hR]
  have hs := lookup_saveAssetBalance
    { getOrCreateAssetBalance localAsset router db with amount := x } db
  rw [hkey] at hs
  rw [hs]
  cases hl : lookupBy abKey (localAsset, router) db with
  | none => simp [getOrCreateAssetBalance, hl]
  | some r0 =>
    have hk := lookupBy_eq_some_key abKey (localAsset, router) db r0 hl
    simp [mergeAssetBalance]
    exact ⟨congrArg Prod.fst hk, congrArg Prod.snd hk⟩

/-- C4 counterexample: removing liquidity from an absent (zero) balance silently
stores a negative amount — the mapping has no `InvalidState` failure and no clamp. -/
theorem liquidityRemoved_underflow_counterexample :
    handleRouterLiquidityRemoved "0xaa" "0xr" 5 ([] : List AssetBalance) =
      [⟨"0xaa", "0xr", -5⟩] := by
  decide

/-- C4 (amended): the liquidity-added path stores exactly the previous amount plus the
delta, and the liquidity-removed path stores exactly the previous amount minus the
delta — unconditionally, with no `InvalidState` failure and no clamping, so the stored
amount can go negative. -/
theorem routerLiquidity_delta_exact (localAsset router : String) (amount : Nat)
    (db : List AssetBalance) :
    lookupBy abKey (localAsset, router)
        (handleRouterLiquidityAdded localAsset router amount db) =
      some ⟨localAsset, router, (getOrCreateAssetBalance localAsset router db).amount + amount⟩
    ∧ lookupBy abKey (localAsset, router)
        (handleRouterLiquidityRemoved localAsset router amount db) =
      some ⟨localAsset, router, (getOrCreateAssetBalance localAsset router db).amount - amount⟩ :=
  ⟨lookup_after_delta localAsset router
      ((getOrCreateAssetBalance localAsset router db).amount + amount) db,
   lookup_after_delta localAsset router
      ((getOrCreateAssetBalance localAsset router db).amount - amount) db⟩

theorem lookup_saveRouter (w : Router) (db : List Router) :
    lookupBy Router.id w.id (saveRouter w db) =
      some ((lookupBy Router.id w.id db).elim w (fun st => mergeRouter st w)) :=
  lookupBy_upsertBy_self Router.id mergeRouter (fun _ _ => rfl) w db

theorem lookup_handleRouterRemoved (routerId : String) (s : SubgraphState) :
    (lookupBy Router.id routerId (handleRouterRemoved routerId s).routers).map
      Router.isActive = some false := by
  have hid : ((lookupBy Router.id routerId s.routers).getD
      ⟨routerId, false, none, none, none, none⟩).id = routerId := by
    cases hl : lookupBy Router.id routerId s.routers with
    | none => rfl
    | some r0 => simpa using lookupBy_eq_some_key Router.id routerId s.routers r0 hl
  have hs := lookup_saveRouter
    { (lookupBy Router.id routerId s.routers).getD ⟨routerId, false, none, none, none, none⟩
        with isActive := false } s.routers
  have hid2 : ({ (lookupBy Router.id routerId s.routers).getD
      ⟨routerId, false, none, none, none, none⟩ with isActive := false } : Router).id =
      routerId := hid
  rw [hid2] at hs
  show (lookupBy Router.id routerId
      (saveRouter { (lookupBy Router.id routerId s.routers).getD
        ⟨routerId, false, none, none, none, none⟩ with isActive := false } s.routers)).map
    Router.isActive = some false
  rw [hs]
  cases hl : lookupBy Router.id routerId s.routers <;> simp [mergeRouter]

/-- C10: `handleRouterAdded` on a router id that already exists leaves the stored
router record entirely unchanged — in particular it does not reset `isActive` to true
for a router previously deactivated by `handleRouterRemoved` — and it creates a router
with `isActive = true` only when no router with that id exists. -/
theorem handleRouterAdded_frame (routerId : String) (s : SubgraphState) :
    (∀ r, lookupBy Router.id routerId s.routers = some r →
      lookupBy Router.id routerId (handleRouterAdded routerId s).routers = some r)
    ∧ (lookupBy Router.id routerId s.routers = none →
      lookupBy Router.id routerId (handleRouterAdded routerId s).routers =
        some ⟨routerId, true, none, none, none, none⟩)
    ∧ (lookupBy Router.id routerId
        (handleRouterAdded routerId (handleRouterRemoved routerId s)).routers).map
      Router.isActive = some false := by
  have routers_of_found : ∀ (s2 : SubgraphState) (r : Router),
      lookupBy Router.id routerId s2.routers = some r →
      (handleRouterAdded routerId s2).routers = s2.routers := by
    intro s2 r hr
    cases hset : s2.setting <;> simp [handleRouterAdded, hr, hset]
  refine ⟨?_, ?_, ?_⟩
  · intro r hr
    rw [routers_of_found s r hr]
    exact hr
  · intro hn
    have hrt : (handleRouterAdded routerId s).routers =
        saveRouter ⟨routerId, true, none, none, none, none⟩ s.routers := by
      cases hset : s.setting <;> simp [handleRouterAdded, hn, hset]
    rw [hrt]
    have hs := lookup_saveRouter ⟨routerId, true, none, none, none, none⟩ s.routers
    rw [show Router.id (⟨routerId, true, none, none, none, none⟩ : Router) = routerId
      from rfl] at hs
    rw [hs, hn]
    rfl
  · have hrem := lookup_handleRouterRemoved routerId s
    obtain ⟨r1, hr1, hact⟩ := Option.map_eq_some'.1 hrem
    rw [routers_of_found _ r1 hr1, hr1]
    simp [hact]

/-- Witness for C10: a previously deactivated router stays deactivated and unchanged
through `handleRouterAdded`. -/
theorem handleRouterAdded_frame_witness :
    lookupBy Router.id "0xr"
        ({ routers := [⟨"0xr", false, none, none, none, none⟩], setting := none } :
          SubgraphState).routers = some ⟨"0xr", false, none, none, none, none⟩
    ∧ lookupBy Router.id "0xr"
        (handleRouterAdded "0xr"
          ({ routers := [⟨"0xr", false, none, none, none, none⟩], setting := none } :
            SubgraphState)).routers = some ⟨"0xr", false, none, none, none, none⟩ :=
  ⟨rfl,
   (handleRouterAdded_frame "0xr"
      { routers := [⟨"0xr", false, none, none, none, none⟩], setting := none }).1
     ⟨"0xr", false, none, none, none, none⟩ rfl⟩

theorem mem_sortTransfers (o : SortOrder) (l : List XTransfer) (a : XTransfer) :
    a ∈ sortTransfers o l ↔ a ∈ l := by
  cases o <;> simp [sortTransfers]

theorem length_sortTransfers (o : SortOrder) (l : List XTransfer) :
    (sortTransfers o l).length = l.length := by
  cases o <;> simp [sortTransfers]

theorem mem_pending_ids_iff (p : XTransfer → Bool) (db : List XTransfer) (t : XTransfer)
    (hmem : t ∈ db) (hnd : (db.map XTransfer.transferId).Nodup)
    (m : Nat) (hm : (db.filter p).length ≤ m) (ord : SortOrder) :
    t.transferId ∈ ((sortTransfers ord (db.filter p)).take m).map XTransfer.transferId
      ↔ p t = true := by
  have hlen : (sortTransfers ord (db.filter p)).length ≤ m := by
    rw [length_sortTransfers]; exact hm
  rw [List.take_of_length_le hlen]
  constructor
  · intro hx
    obtain ⟨u, hu, hid⟩ := List.mem_map.1 hx
    obtain ⟨hudb, hup⟩ := List.mem_filter.1 ((mem_sortTransfers ord _ u).1 hu)
    have hut : u = t := List.inj_on_of_nodup_map hnd hudb hmem hid
    exact hut ▸ hup
  · intro hp
    exact List.mem_map.2
      ⟨t, (mem_sortTransfers ord _ t).2 (List.mem_filter.2 ⟨hmem, hp⟩), rfl⟩

theorem mem_pending_ids_imp (p : XTransfer → Bool) (db : List XTransfer) (t : XTransfer)
    (hmem : t ∈ db) (hnd : (db.map XTransfer.transferId).Nodup)
    (m : Nat) (ord : SortOrder)
    (hx : t.transferId ∈
      ((sortTransfers ord (db.filter p)).take m).map XTransfer.transferId) :
    p t = true := by
  obtain ⟨u, hu, hid⟩ := List.mem_map.1 hx
  obtain ⟨hudb, hup⟩ :=
    List.mem_filter.1 ((mem_sortTransfers ord _ u).1 (List.mem_of_mem_take hu))
  have hut : u = t := List.inj_on_of_nodup_map hnd hudb hmem hid
  exact hut ▸ hup

/-- C6: for every stored transfer, it appears in
`getTransfersWithDestinationPending(destinationDomain)` exactly when its origin
sub-record is set and its destination sub-record is absent, appears in
`getTransfersWithOriginPending(originDomain)` exactly when its destination sub-record
is set and its origin sub-record is absent, and appears in neither pending query once
both sides are present. -/
theorem pending_query_characterization (db : TransferDB) (t : XTransfer)
    (hmem : t ∈ db) (hnd : (db.map XTransfer.transferId).Nodup)
    (limit : Option Nat) (hlim : db.length ≤ limit.getD db.length) (ord : Option SortOrder) :
    (t.transferId ∈
        getTransfersWithDestinationPending (some t.xparams.destinationDomain) limit ord db
      ↔ t.origin.isSome = true ∧ t.destination = none)
    ∧ (t.transferId ∈
        getTransfersWithOriginPending (some t.xparams.originDomain) limit ord db
      ↔ t.destination.isSome = true ∧ t.origin = none)
    ∧ (t.origin.isSome = true → t.destination.isSome = true →
        ∀ (d1 d2 : String) (l1 l2 : Option Nat) (o1 o2 : Option SortOrder),
          t.transferId ∉ getTransfersWithDestinationPending (some d1) l1 o1 db
          ∧ t.transferId ∉ getTransfersWithOriginPending (some d2) l2 o2 db) := by
  have hbound : ∀ (p : XTransfer → Bool),
      (db.filter p).length ≤ limit.getD (db.filter p).length := by
    intro p
    cases limit with
    | none => exact Nat.le_refl _
    | some n => exact le_trans (List.length_filter_le p db) (by simpa using hlim)
  refine ⟨?_, ?_, ?_⟩
  · rw [show getTransfersWithDestinationPending (some t.xparams.destinationDomain) limit ord db =
        ((sortTransfers (ord.getD .asc)
          (db.filter (fun u => decide (u.xparams.destinationDomain = t.xparams.destinationDomain)
            && u.origin.isSome && u.destination.isNone))).take
          (limit.getD (db.filter (fun u =>
            decide (u.xparams.destinationDomain = t.xparams.destinationDomain)
            && u.origin.isSome && u.destination.isNone)).length)).map XTransfer.transferId
      from rfl]
    rw [mem_pending_ids_iff _ db t hmem hnd _ (hbound _) _]
    simp [Option.isNone_iff_eq_none]
  · rw [show getTransfersWithOriginPending (some t.xparams.originDomain) limit ord db =
        ((sortTransfers (ord.getD .asc)
          (db.filter (fun u => decide (u.xparams.originDomain = t.xparams.originDomain)
            && u.destination.isSome && u.origin.isNone))).take
          (limit.getD (db.filter (fun u =>
            decide (u.xparams.originDomain = t.xparams.originDomain)
            && u.destination.isSome && u.origin.isNone)).length)).map XTransfer.transferId
      from rfl]
    rw [mem_pending_ids_iff _ db t hmem hnd _ (hbound _) _]
    simp [Option.isNone_iff_eq_none]
  · intro hO hD d1 d2 l1 l2 o1 o2
    constructor
    · intro hx
      have hp := mem_pending_ids_imp
        (fun u => decide (u.xparams.destinationDomain = d1)
          && u.origin.isSome && u.destination.isNone) db t hmem hnd _ (o1.getD .asc) hx
      simp [Option.isNone_iff_eq_none] at hp
      rw [hp.2] at hD
      simp at hD
    · intro hx
      have hp := mem_pending_ids_imp
        (fun u => decide (u.xparams.originDomain = d2)
          && u.destination.isSome && u.origin.isNone) db t hmem hnd _ (o2.getD .asc) hx
      simp [Option.isNone_iff_eq_none] at hp
      rw [hp.2] at hO
      simp at hO

/-- Witness for C6: an origin-only transfer appears in the destination-pending query. -/
theorem pending_query_characterization_witness :
    (⟨"t1", ⟨"1111", "2222", 1, "c", false, "cd"⟩, some ⟨"a", "b", "10", 5, "h"⟩, none⟩ :
        XTransfer) ∈ ([⟨"t1", ⟨"1111", "2222", 1, "c", false, "cd"⟩,
          some ⟨"a", "b", "10", 5, "h"⟩, none⟩] : TransferDB)
    ∧ "t1" ∈ getTransfersWithDestinationPending (some "2222") (some 100) (some .asc)
        ([⟨"t1", ⟨"1111", "2222", 1, "c", false, "cd"⟩,
          some ⟨"a", "b", "10", 5, "h"⟩, none⟩] : TransferDB) :=
  ⟨List.mem_singleton.2 rfl,
   (pending_query_characterization
      [⟨"t1", ⟨"1111", "2222", 1, "c", false, "cd"⟩, some ⟨"a", "b", "10", 5, "h"⟩, none⟩]
      ⟨"t1", ⟨"1111", "2222", 1, "c", false, "cd"⟩, some ⟨"a", "b", "10", 5, "h"⟩, none⟩
      (List.mem_singleton.2 rfl) (by decide) (some 100) (by decide) (some .asc)).1.mpr
     ⟨rfl, rfl⟩⟩

theorem transferLE_total (a b : XTransfer) : (transferLE a b || transferLE b a) = true := by
  simp only [transferLE, Bool.or_eq_true, Bool.and_eq_true, decide_eq_true_eq]
  rcases Nat.lt_trichotomy a.xparams.nonce b.xparams.nonce with h | h | h
  · exact Or.inl (Or.inl h)
  · rcases le_total a.transferId b.transferId with hs | hs
    · exact Or.inl (Or.inr ⟨h, hs⟩)
    · exact Or.inr (Or.inr ⟨h.symm, hs⟩)
  · exact Or.inr (Or.inl h)

theorem transferLE_trans (a b c : XTransfer) (hab : transferLE a b = true)
    (hbc : transferLE b c = true) : transferLE a c = true := by
  simp only [transferLE, Bool.or_eq_true, Bool.and_eq_true, decide_eq_true_eq] at hab hbc ⊢
  rcases hab with h1 | ⟨h1, hs1⟩
  · rcases hbc with h2 | ⟨h2, _⟩
    · exact Or.inl (Nat.lt_trans h1 h2)
    · exact Or.inl (h2 ▸ h1)
  · rcases hbc with h2 | ⟨h2, hs2⟩
    · exact Or.inl (h1 ▸ h2)
    · exact Or.inr ⟨h1.trans h2, le_trans hs1 hs2⟩

theorem getTransfersByStatus_some (s : XTransferStatus) (limit offset : Option Nat)
    (ord : Option SortOrder) (db : TransferDB) :
    getTransfersByStatus (some s) limit offset ord db =
      ((sortTransfers (ord.getD .asc)
          (db.filter (fun t => decide (statusOf t = some s)))).drop (offset.getD 0)).take
        (limit.getD (db.filter (fun t => decide (statusOf t = some s))).length) := rfl

/-- C5: given 10 stored transfers of one derived status with distinct monotonically
increasing nonces, `getTransfersByStatus(status, 4, 0, ASC)` returns exactly the 4
lowest-nonce matches in increasing nonce order, `(status, 4, 0, DESC)` returns exactly
the 4 highest-nonce matches in decreasing order, and `(status, 1, 9, DESC)` returns
exactly the single lowest-nonce record. -/
theorem pagination_correctness (db : TransferDB) (s : XTransferStatus)
    (hlen : db.length = 10)
    (hst : ∀ t ∈ db, statusOf t = some s)
    (hmono : db.Pairwise (fun a b => a.xparams.nonce < b.xparams.nonce)) :
    getTransfersByStatus (some s) (some 4) (some 0) (some .asc) db = db.take 4
    ∧ getTransfersByStatus (some s) (some 4) (some 0) (some .desc) db = db.reverse.take 4
    ∧ getTransfersByStatus (some s) (some 1) (some 9) (some .desc) db = db.take 1 := by
  have hfilter : db.filter (fun t => decide (statusOf t = some s)) = db :=
    List.filter_eq_self.2 (fun a ha => by simp [hst a ha])
  have hasc : sortTransfers .asc db = db := by
    show db.mergeSort transferLE = db
    exact List.mergeSort_of_sorted
      (hmono.imp (fun h => by
        simp only [transferLE, Bool.or_eq_true, Bool.and_eq_true, decide_eq_true_eq]
        exact Or.inl h))
  have hdesc : sortTransfers .desc db = db.reverse := by
    show db.mergeSort (fun a b => transferLE b a) = db.reverse
    have hperm : List.Perm (db.mergeSort (fun a b => transferLE b a)) db.reverse :=
      (List.mergeSort_perm db _).trans (List.reverse_perm db).symm
    have hsorted : (db.mergeSort (fun a b => transferLE b a)).Pairwise
        (fun a b => transferLE b a = true) :=
      List.sorted_mergeSort (fun a b c hab hbc => transferLE_trans c b a hbc hab)
        (fun a b => transferLE_total b a) db
    have hne : (db.mergeSort (fun a b => transferLE b a)).Pairwise
        (fun a b => a.xparams.nonce ≠ b.xparams.nonce) :=
      ((List.mergeSort_perm db _).pairwise_iff (fun h => h.symm)).2
        (hmono.imp (fun h => Nat.ne_of_lt h))
    have hstrict : (db.mergeSort (fun a b => transferLE b a)).Pairwise
        (fun a b => b.xparams.nonce < a.xparams.nonce) :=
      (hsorted.and hne).imp (fun hx => by
        obtain ⟨hle, hno⟩ := hx
        simp only [transferLE, Bool.or_eq_true, Bool.and_eq_true, decide_eq_true_eq] at hle
        rcases hle with h | ⟨h, _⟩
        · exact h
        · exact absurd h.symm hno)
    have hrev : db.reverse.Pairwise (fun a b => b.xparams.nonce < a.xparams.nonce) :=
      List.pairwise_reverse.2 hmono
    haveI : IsAntisymm XTransfer (fun a b => b.xparams.nonce < a.xparams.nonce) :=
      ⟨fun _ _ h h2 => absurd h2 (Nat.lt_asymm h)⟩
    exact List.eq_of_perm_of_sorted hperm hstrict hrev
  refine ⟨?_, ?_, ?_⟩
  · rw [getTransfersByStatus_some, hfilter]
    simp only [Option.getD_some]
    rw [hasc, List.drop_zero]
  · rw [getTransfersByStatus_some, hfilter]
    simp only [Option.getD_some]
    rw [hdesc, List.drop_zero]
  · rw [getTransfersByStatus_some, hfilter]
    simp only [Option.getD_some]
    rw [hdesc]
    cases db with
    | nil => simp at hlen
    | cons a t =>
      have ht : t.reverse.length = 9 := by
        simp only [List.length_cons] at hlen
        simp
        omega
      rw [List.reverse_cons, List.drop_left' ht]
      rfl

/-- Witness for C5 on ten concrete transfers with nonces 1..10. -/
theorem pagination_correctness_witness :
    sampleTransfers.length = 10
    ∧ (∀ t ∈ sampleTransfers, statusOf t = some XTransferStatus.XCalled)
    ∧ sampleTransfers.Pairwise (fun a b => a.xparams.nonce < b.xparams.nonce)
    ∧ getTransfersByStatus (some XTransferStatus.XCalled) (some 4) (some 0) (some .asc)
        sampleTransfers = sampleTransfers.take 4
    ∧ getTransfersByStatus (some XTransferStatus.XCalled) (some 4) (some 0) (some .desc)
        sampleTransfers = sampleTransfers.reverse.take 4
    ∧ getTransfersByStatus (some XTransferStatus.XCalled) (some 1) (some 9) (some .desc)
        sampleTransfers = sampleTransfers.take 1 :=
  ⟨rfl, by decide, by decide,
   (pagination_correctness sampleTransfers XTransferStatus.XCalled rfl (by decide) (by decide)).1,
   (pagination_correctness sampleTransfers XTransferStatus.XCalled rfl (by decide) (by decide)).2.1,
   (pagination_correctness sampleTransfers XTransferStatus.XCalled rfl (by decide) (by decide)).2.2⟩

theorem upsertAll_cons {α K : Type} [DecidableEq K] (key : α → K) (mrg : α → α → α)
    (e : α) (rest : List α) (db : List α) :
    upsertAll key mrg (e :: rest) db = upsertAll key mrg rest (upsertBy key mrg e db) := rfl

theorem upsertBy_fresh {α K : Type} [DecidableEq K] (key : α → K) (mrg : α → α → α)
    (w : α) (db : List α) (hfresh : ∀ b ∈ db, key b ≠ key w) :
    upsertBy key mrg w db = db ++ [w] := by
  induction db with
  | nil => rfl
  | cons r rs ih =>
    rw [upsertBy, if_neg (hfresh r (List.mem_cons_self r rs)),
      ih (fun b hb => hfresh b (List.mem_cons_of_mem r hb))]
    rfl

theorem upsertAll_fresh {α K : Type} [DecidableEq K] (key : α → K) (mrg : α → α → α) :
    ∀ (l : List α) (db : List α),
    (∀ a ∈ l, ∀ b ∈ db, key b ≠ key a) → (l.map key).Nodup →
    upsertAll key mrg l db = db ++ l := by
  intro l
  induction l with
  | nil => intro db _ _; simp [upsertAll]
  | cons e rest ih =>
    intro db hfresh hnd
    rw [List.map_cons, List.nodup_cons] at hnd
    obtain ⟨hnotmem, hnd2⟩ := hnd
    rw [upsertAll_cons, upsertBy_fresh key mrg e db
      (fun b hb => hfresh e (List.mem_cons_self e rest) b hb)]
    rw [ih (db ++ [e]) ?fresh2 hnd2]
    · simp
    · intro a ha b hb
      rcases List.mem_append.1 hb with hb | hb
      · exact hfresh a (List.mem_cons_of_mem e ha) b hb
      · rw [List.mem_singleton.1 hb]
        intro hc
        exact hnotmem (hc ▸ List.mem_map_of_mem key ha)

theorem flatLT_le (a b : FlatBalance) (h : flatLT a b) : flatLE a b = true := by
  simp only [flatLE, Bool.or_eq_true, Bool.and_eq_true, decide_eq_true_eq]
  rcases h with h | ⟨he, h2⟩
  · exact Or.inl h
  · rcases h2 with h2 | ⟨he2, h3⟩
    · exact Or.inr ⟨he, Or.inl h2⟩
    · exact Or.inr ⟨he, Or.inr ⟨he2, le_of_lt h3⟩⟩

theorem flatLT_ne (a b : FlatBalance) (h : flatLT a b) : balKey a ≠ balKey b := by
  intro heq
  simp only [balKey, Prod.mk.injEq] at heq
  obtain ⟨h1, h2, h3⟩ := heq
  rcases h with h | ⟨-, h2a⟩
  · rw [h1] at h
    exact lt_irrefl _ h
  · rcases h2a with h2a | ⟨-, h3a⟩
    · rw [h2] at h2a
      exact lt_irrefl _ h2a
    · rw [h3] at h3a
      exact lt_irrefl _ h3a

theorem groupByRouter_cons (e : FlatBalance) (l : List FlatBalance) :
    groupByRouter (e :: l) =
      match groupByRouter l with
      | [] => [⟨e.router, [entryOfFlat e]⟩]
      | rb :: rbs =>
        if rb.router = e.router then ⟨rb.router, entryOfFlat e :: rb.assets⟩ :: rbs
        else ⟨e.router, [entryOfFlat e]⟩ :: rb :: rbs := rfl

theorem groupByRouter_prepend (R : String) (assets : List AssetBalanceEntry)
    (tailFlat : List FlatBalance)
    (hhead : ∀ g gs, groupByRouter tailFlat = g :: gs → g.router ≠ R) :
    assets ≠ [] →
    groupByRouter (assets.map (fun a =>
        (⟨R, a.domain, a.canonicalId, a.adoptedAsset, a.localAsset, a.blockNumber,
          a.balance⟩ : FlatBalance)) ++ tailFlat) =
      ⟨R, assets⟩ :: groupByRouter tailFlat := by
  induction assets with
  | nil => intro h; exact absurd rfl h
  | cons a as ih =>
    intro _
    cases as with
    | nil =>
      simp only [List.map_cons, List.map_nil, List.singleton_append, groupByRouter_cons]
      cases hg : groupByRouter tailFlat with
      | nil => rfl
      | cons g gs =>
        have hne2 : ¬ g.router = R := hhead g gs hg
        simp only [hne2, if_false]
        rfl
    | cons a2 rest =>
      rw [List.map_cons, List.cons_append, groupByRouter_cons, ih (by simp)]
      simp only [if_pos]
      rfl

theorem groupByRouter_flatten (snapshot : List RouterBalance)
    (hassets : ∀ rb ∈ snapshot, rb.assets ≠ [])
    (hrouters : snapshot.Pairwise (fun x y => x.router ≠ y.router)) :
    groupByRouter (flattenRouterBalances snapshot) = snapshot := by
  induction snapshot with
  | nil => rfl
  | cons rb rest ih =>
    obtain ⟨hhdall, hrest⟩ := List.pairwise_cons.1 hrouters
    have hgrest : groupByRouter (flattenRouterBalances rest) = rest :=
      ih (fun x hx => hassets x (List.mem_cons_of_mem rb hx)) hrest
    have hflat : flattenRouterBalances (rb :: rest) =
        rb.assets.map (fun a => (⟨rb.router, a.domain, a.canonicalId, a.adoptedAsset,
          a.localAsset, a.blockNumber, a.balance⟩ : FlatBalance)) ++
        flattenRouterBalances rest := by
      simp [flattenRouterBalances]
    rw [hflat, groupByRouter_prepend rb.router rb.assets _ ?hhead
      (hassets rb (List.mem_cons_self rb rest)), hgrest]
    case hhead =>
      intro g gs hg
      rw [hgrest] at hg
      exact (hhdall g (hg ▸ List.mem_cons_self g gs)).symm

/-- C7: writing a full router-balance snapshot with `saveRouterBalances` into an empty
ledger and then reading the aggregated view — grouped by router and ordered by
(router address, domain, canonical asset id) — reproduces the written snapshot
exactly, for any snapshot already in that canonical order with per-router asset lists
nonempty and pairwise distinct routers. -/
theorem routerBalances_roundtrip (snapshot : List RouterBalance)
    (hassets : ∀ rb ∈ snapshot, rb.assets ≠ [])
    (hrouters : snapshot.Pairwise (fun x y => x.router ≠ y.router))
    (hsorted : (flattenRouterBalances snapshot).Pairwise flatLT) :
    readRouterBalances (saveRouterBalances (some snapshot) ([] : RouterBalanceDB)) =
      snapshot := by
  have hkeysnd : ((flattenRouterBalances snapshot).map balKey).Nodup :=
    List.pairwise_map.2 (hsorted.imp (fun h => flatLT_ne _ _ h))
  have hsave : saveRouterBalances (some snapshot) ([] : RouterBalanceDB) =
      flattenRouterBalances snapshot := by
    show upsertAll balKey mergeFlat (flattenRouterBalances snapshot) [] =
      flattenRouterBalances snapshot
    rw [upsertAll_fresh balKey mergeFlat _ [] (fun a _ b hb => absurd hb (by simp)) hkeysnd]
    simp
  rw [hsave, readRouterBalances,
    List.mergeSort_of_sorted (hsorted.imp (fun h => flatLT_le _ _ h)),
    groupByRouter_flatten snapshot hassets hrouters]

/-- Witness for C7 on a concrete two-router, two-asset snapshot in canonical order. -/
theorem routerBalances_roundtrip_witness :
    (flattenRouterBalances sampleRouterBalances).Pairwise flatLT
    ∧ readRouterBalances (saveRouterBalances (some sampleRouterBalances)
        ([] : RouterBalanceDB)) = sampleRouterBalances := by
  have h1 : ("0xa" : String) < "0xb" := String.lt_iff_toList_lt.mpr (by decide)
  have h2 : ("0xb" : String) < "0xbb" := String.lt_iff_toList_lt.mpr (by decide)
  have h3 : ("1234" : String) < "12345" := String.lt_iff_toList_lt.mpr (by decide)
  have hsorted : (flattenRouterBalances sampleRouterBalances).Pairwise flatLT := by
    show List.Pairwise flatLT
      [⟨"0xa", "1234", "0xb", "0xaa", "0xaa", 0, "100"⟩,
       ⟨"0xa", "1234", "0xbb", "0xaa", "0xaa", 0, "99"⟩,
       ⟨"0xb", "1234", "0xb", "0xaa", "0xaa", 0, "98"⟩,
       ⟨"0xb", "12345", "0xb", "0xaa", "0xaa", 0, "97"⟩]
    refine List.Pairwise.cons ?_ (List.Pairwise.cons ?_ (List.Pairwise.cons ?_
      (List.Pairwise.cons (fun b hb => absurd hb (List.not_mem_nil b)) List.Pairwise.nil)))
    · intro b hb
      rcases List.mem_cons.1 hb with rfl | hb
      · exact Or.inr ⟨rfl, Or.inr ⟨rfl, h2⟩⟩
      rcases List.mem_cons.1 hb with rfl | hb
      · exact Or.inl h1
      rcases List.mem_cons.1 hb with rfl | hb
      · exact Or.inl h1
      · exact absurd hb (List.not_mem_nil b)
    · intro b hb
      rcases List.mem_cons.1 hb with rfl | hb
      · exact Or.inl h1
      rcases List.mem_cons.1 hb with rfl | hb
      · exact Or.inl h1
      · exact absurd hb (List.not_mem_nil b)
    · intro b hb
      rcases List.mem_cons.1 hb with rfl | hb
      · exact Or.inr ⟨rfl, Or.inl h3⟩
      · exact absurd hb (List.not_mem_nil b)
  exact ⟨hsorted, routerBalances_roundtrip sampleRouterBalances (by decide) (by decide) hsorted⟩

end ConnextDB
